import Mathlib

/-!
Verification of `contrib/memtestc/list.c`: a synthetic memory-pressure
generator.  The program keeps a singly linked list whose root is a permanent
sentinel node; a control loop alternately inserts freshly allocated blocks
right after the sentinel (growth phase) and removes the block right after the
sentinel (shrink phase), switching phase at a high watermark of 16 GiB and a
low watermark of 1 GiB on the running byte total.

The embedding below models the chain hanging off the sentinel as a
`List Node` (head = the node stored in `root->next`), machine integers as
`Int`/`Nat` (all quantities stay far below the 64-bit overflow bound:
`total ≤ 2^34 + 2^28`), allocation as always succeeding (the C program treats
allocation failure as an expected crash outside its own logic), `exit(1)` as
the `halt` constructor of `StepResult`, and the `printf`/`sleep`/`usleep`
calls as explicit data carried by each step result.
-/

namespace Memtest

/-- The constant `long long int lo = 1L << 30;` — the 1 GiB low watermark. -/
def lo : Int := 1 <<< 30

/-- The constant `long long int hi = 16L << 30;` — the 16 GiB high watermark. -/
def hi : Int := 16 <<< 30

/-- The C `struct Node`: payload size (`data`) plus the owned byte buffer (`buf`).
The `next` pointer is represented by the position of the node inside the
`List Node` modelling the chain. -/
structure Node where
  data : Nat
  buf : List Nat

/-- The C function `newNode(sz)`: `calloc` a node, `calloc` a buffer of `sz` bytes, then the
`for` loop overwrites every byte with `0xff`; `data` is set to `sz` and
`next` to `NULL`. -/
def newNode (sz : Nat) : Node :=
  { data := sz, buf := List.replicate sz 0xff }

/-- The C function `allocate(n, sz)` for `n` the sentinel: a new node is spliced in right
after the sentinel, the old successor chain becoming the new node's tail
(`nn->next = tmp`).  In list form: cons at the head of the chain. -/
def allocate (chain : List Node) (sz : Nat) : List Node :=
  newNode sz :: chain

/-- The C function `dealloc(n)` for `n` the sentinel: if the sentinel has no successor the C
code prints and `exit(1)`s (modelled by `none`); otherwise the first node of
the chain is unlinked and freed and its `data` is returned. -/
def dealloc : List Node → Option (Nat × List Node)
  | [] => none
  | t :: rest => some (t.data, rest)

/-- The loop state of `main`: the chain after the sentinel `root`, the
running byte total (`long long int total`), and the phase flag
(`int increase`, only ever 0 or 1, modelled as a `Bool`). -/
structure St where
  chain : List Node
  total : Int
  increase : Bool

/-- The initial loop state: `root = newNode(100)` holds only the sentinel, so
the chain is empty; `total = 0`; `increase = 1`. -/
def initSt : St :=
  { chain := [], total := 0, increase := true }

/-- The sentinel node created by `newNode(100)` in `main`; it anchors the
list and is never counted in `total` nor freed. -/
def rootNode : Node := newNode 100

/-- One `printf("Total size: %.2LF\n", gb)` call: the fixed text, the number
of printed decimal digits, and the exact value `total / 2^30` handed to the
formatter (`total < 2^35` is exactly representable in a `long double` and
dividing by the power of two `2^30` is exact). -/
structure Report where
  label : String
  decimals : Nat
  value : Rat

/-- The report line printed at the bottom of every loop iteration. -/
def report (total : Int) : Report :=
  { label := "Total size: ", decimals := 2, value := (total : Rat) / 2 ^ 30 }

/-- The blocking call performed by a shrink iteration: `sleep(5)` or
`usleep(10)`. -/
inductive Delay where
  | sleepSecs (s : Nat)
  | usleepMicros (u : Nat)

/-- The outcome of one iteration of the `while(1)` loop: either the loop
continues with a new state, an optional blocking delay and the printed
report, or the process terminates via `exit(code)` after printing `msg`,
with `final` the program state at the moment of exit. -/
inductive StepResult where
  | cont (s : St) (d : Option Delay) (rep : Report)
  | halt (code : Nat) (msg : String) (final : St)

/-- The expression `int sz = (1 + rand() % 256) << 20;` — the size drawn by a growth step
from the random value `r` returned by `rand()` (non-negative, so C `%` is
mathematical `mod`). -/
def blockSize (r : Nat) : Nat :=
  (1 + r % 256) <<< 20

/-- The `increase == 1` branch of the loop body: draw a size, `allocate`,
check `root->next` for `NULL` (fatal if so), add the size to `total`, and
switch to shrinking when `total > hi`. -/
def growStep (s : St) (r : Nat) : StepResult :=
  let sz := blockSize r
  let chain2 := allocate s.chain sz
  if chain2.isEmpty then
    .halt 1 "root->next is NULL\n" { s with chain := chain2 }
  else
    let total2 := s.total + (sz : Int)
    let inc2 := if total2 > hi then false else s.increase
    .cont { chain := chain2, total := total2, increase := inc2 }
      none (report total2)

/-- The `else` branch of the loop body: `dealloc` (fatal `exit(1)` when the
chain is empty), subtract the returned size from `total`, and either switch
back to growing and `sleep(5)` when `total < lo`, or keep shrinking and
`usleep(10)`. -/
def shrinkStep (s : St) : StepResult :=
  match dealloc s.chain with
  | none => .halt 1 "n->next is NULL\n" s
  | some (sz, chain2) =>
    let total2 := s.total - (sz : Int)
    if total2 < lo then
      .cont { chain := chain2, total := total2, increase := true }
        (some (.sleepSecs 5)) (report total2)
    else
      .cont { chain := chain2, total := total2, increase := s.increase }
        (some (.usleepMicros 10)) (report total2)

/-- One full iteration of the `while(1)` loop, dispatching on
`if (increase == 1)`; `r` is the value `rand()` would return this iteration
(ignored by a shrink step). -/
def step (s : St) (r : Nat) : StepResult :=
  if s.increase then growStep s r else shrinkStep s

/-- The sum of `data` over the chain: the number of payload bytes currently
held by non-sentinel nodes. -/
def sumChain (chain : List Node) : Nat :=
  (chain.map Node.data).sum

/-- The states the loop can reach from the initial state, under any sequence
of `rand()` values, as long as no iteration hits a fatal `exit`. -/
inductive Reachable : St → Prop
  | init : Reachable initSt
  | next {s s' : St} {r : Nat} {d : Option Delay} {rep : Report} :
      Reachable s → step s r = .cont s' d rep → Reachable s'

end Memtest

namespace Memtest

/-- The low watermark is positive. -/
lemma lo_pos : (0 : Int) < lo := by decide

/-- The low watermark lies below the high watermark. -/
lemma lo_le_hi : lo ≤ hi := by decide

/-- Summing the chain after a head insertion adds the new payload size. -/
lemma sumChain_cons (n : Node) (rest : List Node) :
    sumChain (n :: rest) = n.data + sumChain rest := by
  simp [sumChain]

/-- The payload size recorded by a fresh node. -/
lemma newNode_data (sz : Nat) : (newNode sz).data = sz := rfl

/-- A growth step never exits: it always continues with the new node at the
head of the chain, the size added to the total, and the mode recomputed from
the high watermark. -/
lemma growStep_cont (s : St) (r : Nat) :
    growStep s r = .cont
      { chain := newNode (blockSize r) :: s.chain,
        total := s.total + (blockSize r : Int),
        increase := if hi < s.total + (blockSize r : Int) then false else s.increase }
      none (report (s.total + (blockSize r : Int))) := rfl

/-- A shrink step on a non-empty chain removes the head node, subtracts its
size, and branches on the low watermark. -/
lemma shrinkStep_cons (s : St) (t : Node) (rest : List Node)
    (hc : s.chain = t :: rest) :
    shrinkStep s =
      if s.total - (t.data : Int) < lo then
        .cont { chain := rest, total := s.total - (t.data : Int), increase := true }
          (some (.sleepSecs 5)) (report (s.total - (t.data : Int)))
      else
        .cont { chain := rest, total := s.total - (t.data : Int), increase := s.increase }
          (some (.usleepMicros 10)) (report (s.total - (t.data : Int))) := by
  unfold shrinkStep
  rw [hc]
  rfl

/-- A shrink step on an empty chain is the fatal `exit(1)` path of `dealloc`,
leaving the state untouched. -/
lemma shrinkStep_nil (s : St) (hc : s.chain = []) :
    shrinkStep s = .halt 1 "n->next is NULL\n" s := by
  unfold shrinkStep
  rw [hc]
  rfl

/-- The loop invariant: the total equals the payload bytes held by the chain,
and in shrinking mode the total is still at least the low watermark. -/
def Inv (s : St) : Prop :=
  s.total = (sumChain s.chain : Int) ∧ (s.increase = false → lo ≤ s.total)

/-- The initial state satisfies the loop invariant. -/
lemma inv_init : Inv initSt := by
  refine ⟨rfl, ?_⟩
  intro h
  simp [initSt] at h

/-- Every continuing loop iteration preserves the loop invariant. -/
lemma inv_step {s s' : St} {r : Nat} {d : Option Delay} {rep : Report}
    (hs : Inv s) (hstep : step s r = .cont s' d rep) : Inv s' := by
  obtain ⟨hsum, hlo⟩ := hs
  by_cases hinc : s.increase = true
  · rw [step, if_pos hinc, growStep_cont] at hstep
    injection hstep with h1 h2 h3
    subst h1
    refine ⟨?_, ?_⟩
    · simp only [sumChain_cons, newNode_data]
      push_cast
      omega
    · intro hfalse
      simp only at hfalse
      split at hfalse
      · next hgt =>
          have h1 := lo_le_hi
          simp only
          linarith
      · exact absurd hfalse (by simp [hinc])
  · rw [Bool.not_eq_true] at hinc
    have hge := hlo hinc
    cases hchain : s.chain with
    | nil =>
        exfalso
        rw [hchain] at hsum
        simp [sumChain] at hsum
        have := lo_pos
        linarith
    | cons t rest =>
        rw [step, if_neg (by simp [hinc]), shrinkStep_cons s t rest hchain] at hstep
        rw [hchain] at hsum
        rw [sumChain_cons] at hsum
        split at hstep
        · injection hstep with h1 h2 h3
          subst h1
          refine ⟨?_, ?_⟩
          · simp only
            push_cast at hsum ⊢
            omega
          · intro hfalse
            simp at hfalse
        · next hnlt =>
            injection hstep with h1 h2 h3
            subst h1
            refine ⟨?_, ?_⟩
            · simp only
              push_cast at hsum ⊢
              omega
            · intro _
              simp only
              linarith [not_lt.mp hnlt]

/-- Every reachable state satisfies the loop invariant. -/
lemma inv_reachable {s : St} (h : Reachable s) : Inv s := by
  induction h with
  | init => exact inv_init
  | next _ hstep ih => exact inv_step ih hstep

end Memtest

namespace Memtest

/-- Claim C1: in every state the control loop can reach (in particular after
every growth step, and preserved across every loop iteration), the running
total equals the exact sum of payload sizes over all non-sentinel nodes
currently linked in the chain, and the total is never negative. -/
theorem c1_total_invariant (s : St) (h : Reachable s) :
    s.total = (sumChain s.chain : Int) ∧ 0 ≤ s.total := by
  obtain ⟨hsum, _⟩ := inv_reachable h
  refine ⟨hsum, ?_⟩
  rw [hsum]
  exact Int.natCast_nonneg _

/-- Witness for C1 at the initial state. -/
theorem c1_total_invariant_witness :
    initSt.total = (sumChain initSt.chain : Int) ∧ 0 ≤ initSt.total :=
  c1_total_invariant initSt Reachable.init

/-- Claim C2: insertion is at head-of-chain and removal is LIFO.  From
`total = 0` in growing mode, three growth steps drawing sizes 10 MiB (rand
value 9), 20 MiB (19) and 5 MiB (4) yield `total = 35 MiB` and the chain
sentinel → 5 MiB → 20 MiB → 10 MiB; a shrink step from that state removes
the 5 MiB block first, yielding `total = 30 MiB` and the chain
sentinel → 20 MiB → 10 MiB. -/
theorem c2_lifo_scenario :
    blockSize 9 = 10 * 2 ^ 20 ∧ blockSize 19 = 20 * 2 ^ 20 ∧
    blockSize 4 = 5 * 2 ^ 20 ∧
    step initSt 9 = .cont
      { chain := [newNode (10 * 2 ^ 20)], total := 10 * 2 ^ 20, increase := true }
      none (report (10 * 2 ^ 20)) ∧
    step { chain := [newNode (10 * 2 ^ 20)], total := 10 * 2 ^ 20, increase := true } 19 =
      .cont
        { chain := [newNode (20 * 2 ^ 20), newNode (10 * 2 ^ 20)],
          total := 30 * 2 ^ 20, increase := true }
        none (report (30 * 2 ^ 20)) ∧
    step { chain := [newNode (20 * 2 ^ 20), newNode (10 * 2 ^ 20)],
           total := 30 * 2 ^ 20, increase := true } 4 =
      .cont
        { chain := [newNode (5 * 2 ^ 20), newNode (20 * 2 ^ 20), newNode (10 * 2 ^ 20)],
          total := 35 * 2 ^ 20, increase := true }
        none (report (35 * 2 ^ 20)) ∧
    shrinkStep { chain := [newNode (5 * 2 ^ 20), newNode (20 * 2 ^ 20), newNode (10 * 2 ^ 20)],
                 total := 35 * 2 ^ 20, increase := true } =
      .cont
        { chain := [newNode (20 * 2 ^ 20), newNode (10 * 2 ^ 20)],
          total := 30 * 2 ^ 20, increase := true }
        (some (.sleepSecs 5)) (report (30 * 2 ^ 20)) :=
  ⟨rfl, rfl, rfl, rfl, rfl, rfl, rfl⟩

/-- Claim C3: a shrink step attempted while the list holds only the sentinel
terminates the process with exit code 1, and the state (in particular the
running total) is unchanged at the moment of exit. -/
theorem c3_empty_shrink_exit (s : St) (r : Nat) (hmode : s.increase = false)
    (hempty : s.chain = []) :
    step s r = .halt 1 "n->next is NULL\n" s := by
  rw [step, if_neg (by simp [hmode])]
  exact shrinkStep_nil s hempty

/-- Witness for C3: the shrink branch on a sentinel-only state exits with
code 1 without touching the state. -/
theorem c3_empty_shrink_exit_witness :
    step { chain := [], total := 0, increase := false } 0 =
      .halt 1 "n->next is NULL\n" { chain := [], total := 0, increase := false } :=
  c3_empty_shrink_exit { chain := [], total := 0, increase := false } 0 rfl rfl

/-- Claim C7: `newNode sz` returns a node whose payload size equals `sz` and
whose owned buffer has length `sz` with every byte equal to `0xff`. -/
theorem c7_newNode_spec (sz : Nat) :
    (newNode sz).data = sz ∧ (newNode sz).buf.length = sz ∧
    ∀ b ∈ (newNode sz).buf, b = 0xff := by
  refine ⟨rfl, by simp [newNode], ?_⟩
  intro b hb
  simp only [newNode] at hb
  exact List.eq_of_mem_replicate hb

/-- Witness for C7 at size 3. -/
theorem c7_newNode_spec_witness :
    (newNode 3).data = 3 ∧ (newNode 3).buf.length = 3 ∧
    ∀ b ∈ (newNode 3).buf, b = 0xff :=
  c7_newNode_spec 3

/-- Claim C9: the post-insertion corruption check is dead code.  `allocate`
unconditionally places the freshly created node at the head of the chain, so
the chain is never empty after insertion, and a growth step always takes the
continuing branch (never the fatal null-check exit). -/
theorem c9_null_check_unreachable (s : St) (r : Nat) :
    allocate s.chain (blockSize r) = newNode (blockSize r) :: s.chain ∧
    (allocate s.chain (blockSize r)).isEmpty = false ∧
    ∃ s2 rep, growStep s r = .cont s2 none rep := by
  refine ⟨rfl, rfl, ?_⟩
  rw [growStep_cont]
  exact ⟨_, _, rfl⟩

end Memtest

namespace Memtest

/-- Claim C4: after a growth step from growing mode, the mode is shrinking
exactly when the new total strictly exceeds the high watermark `2^34`; while
the total stays at or below it the mode stays growing, and once it is
exceeded the next iteration executes the shrink branch. -/
theorem c4_hi_watermark (s : St) (r : Nat) (s' : St) (d : Option Delay)
    (rep : Report) (hmode : s.increase = true)
    (hstep : step s r = .cont s' d rep) :
    hi = 2 ^ 34 ∧
    (s'.increase = false ↔ hi < s'.total) ∧
    (s'.total ≤ hi → s'.increase = true) ∧
    (∀ r2, hi < s'.total → step s' r2 = shrinkStep s') := by
  rw [step, if_pos hmode, growStep_cont] at hstep
  injection hstep with h1 h2 h3
  subst h1
  refine ⟨by decide, ?_, ?_, ?_⟩
  · by_cases hgt : hi < s.total + (blockSize r : Int) <;>
      simp [hgt, hmode]
  · intro hle
    simp only
    rw [if_neg (by exact not_lt.mpr hle)]
    exact hmode
  · intro r2 hgt
    rw [step, if_neg]
    simp only
    rw [if_pos hgt]
    simp

/-- Witness for C4: a growth step from total `2^34` (exactly the high
watermark) with a 256 MiB draw crosses the watermark and flips the mode. -/
theorem c4_hi_watermark_witness :
    hi = 2 ^ 34 ∧
    ((({ chain := [newNode 268435456], total := 17448304640, increase := false } : St).increase
        = false) ↔
      hi < ({ chain := [newNode 268435456], total := 17448304640, increase := false } : St).total) ∧
    (({ chain := [newNode 268435456], total := 17448304640, increase := false } : St).total ≤ hi →
      ({ chain := [newNode 268435456], total := 17448304640, increase := false } : St).increase
        = true) ∧
    (∀ r2,
      hi < ({ chain := [newNode 268435456], total := 17448304640, increase := false } : St).total →
      step { chain := [newNode 268435456], total := 17448304640, increase := false } r2 =
        shrinkStep { chain := [newNode 268435456], total := 17448304640, increase := false }) :=
  c4_hi_watermark { chain := [], total := 17179869184, increase := true } 255
    { chain := [newNode 268435456], total := 17448304640, increase := false }
    none (report 17448304640) rfl rfl

/-- Claim C5: after a continuing shrink step, if the new total is strictly
below the low watermark `2^30` the mode switches to growing and the iteration
pauses for 5 seconds; otherwise the mode stays shrinking and the iteration
pauses for 10 microseconds. -/
theorem c5_lo_watermark (s : St) (r : Nat) (s' : St) (d : Option Delay)
    (rep : Report) (hmode : s.increase = false)
    (hstep : step s r = .cont s' d rep) :
    lo = 2 ^ 30 ∧
    (s'.total < lo → s'.increase = true ∧ d = some (.sleepSecs 5)) ∧
    (lo ≤ s'.total → s'.increase = false ∧ d = some (.usleepMicros 10)) := by
  rw [step, if_neg (by simp [hmode])] at hstep
  cases hchain : s.chain with
  | nil =>
      rw [shrinkStep_nil s hchain] at hstep
      cases hstep
  | cons t rest =>
      rw [shrinkStep_cons s t rest hchain] at hstep
      refine ⟨by decide, ?_, ?_⟩
      · intro hlt
        split at hstep
        · next h =>
            injection hstep with h1 h2 h3
            subst h1 h2
            exact ⟨rfl, rfl⟩
        · next h =>
            injection hstep with h1 h2 h3
            subst h1
            exact absurd hlt h
      · intro hge
        split at hstep
        · next h =>
            injection hstep with h1 h2 h3
            subst h1
            exact absurd h (not_lt.mpr hge)
        · next h =>
            injection hstep with h1 h2 h3
            subst h1 h2
            exact ⟨hmode, rfl⟩

/-- Witness for C5: a shrink step that drops the total from 1 MiB to 0
(below the low watermark) switches back to growing and sleeps 5 seconds. -/
theorem c5_lo_watermark_witness :
    lo = 2 ^ 30 ∧
    (({ chain := [], total := 0, increase := true } : St).total < lo →
      ({ chain := [], total := 0, increase := true } : St).increase = true ∧
      (some (Delay.sleepSecs 5) : Option Delay) = some (.sleepSecs 5)) ∧
    (lo ≤ ({ chain := [], total := 0, increase := true } : St).total →
      ({ chain := [], total := 0, increase := true } : St).increase = false ∧
      (some (Delay.sleepSecs 5) : Option Delay) = some (.usleepMicros 10)) :=
  c5_lo_watermark { chain := [newNode 1048576], total := 1048576, increase := false } 0
    { chain := [], total := 0, increase := true }
    (some (.sleepSecs 5)) (report 0) rfl rfl

/-- Claim C6: every growth step draws the size `(1 + r % 256) <<< 20`, i.e.
`(1 + r') * 2^20` for `r' = r % 256 ∈ [0, 255]`; the attainable sizes are
exactly `{1 MiB, ..., 256 MiB}` in 1 MiB steps (the map from `[0, 255]` onto
them being a bijection, a uniformly random draw yields a uniformly random
size), and a growth step allocates a block of exactly that size, never any
other. -/
theorem c6_block_sizes :
    (∀ r, blockSize r = (1 + r % 256) * 2 ^ 20) ∧
    (∀ r, blockSize r ∈ Finset.image (fun k => (1 + k) * 2 ^ 20) (Finset.range 256)) ∧
    Function.Injective (fun k : Nat => (1 + k) * 2 ^ 20) ∧
    (∀ k, k < 256 → ∃ r, blockSize r = (1 + k) * 2 ^ 20) ∧
    (∀ s r s2 d rep, growStep s r = .cont s2 d rep →
      s2.chain = newNode (blockSize r) :: s.chain) := by
  refine ⟨?_, ?_, ?_, ?_, ?_⟩
  · intro r
    simp [blockSize, Nat.shiftLeft_eq]
  · intro r
    rw [Finset.mem_image]
    exact ⟨r % 256, Finset.mem_range.mpr (Nat.mod_lt r (by norm_num)),
      by simp [blockSize, Nat.shiftLeft_eq]⟩
  · intro a b hab
    dsimp only at hab
    have h := Nat.eq_of_mul_eq_mul_right (show 0 < 2 ^ 20 by norm_num) hab
    omega
  · intro k hk
    exact ⟨k, by simp [blockSize, Nat.shiftLeft_eq, Nat.mod_eq_of_lt hk]⟩
  · intro s r s2 d rep h
    rw [growStep_cont] at h
    injection h with h1 h2 h3
    subst h1
    rfl

/-- Witness for C6: rand value 9 yields a 10 MiB block, and the growth step
from the initial state links exactly that block. -/
theorem c6_block_sizes_witness :
    blockSize 9 = (1 + 9 % 256) * 2 ^ 20 ∧
    ({ chain := [newNode (blockSize 9)], total := 10485760, increase := true } : St).chain =
      newNode (blockSize 9) :: initSt.chain :=
  ⟨c6_block_sizes.1 9,
   c6_block_sizes.2.2.2.2 initSt 9
     { chain := [newNode (blockSize 9)], total := 10485760, increase := true }
     none (report 10485760) rfl⟩

/-- Claim C8: every continuing loop iteration (growth or shrink) emits
exactly one report line consisting of the text `Total size: `, the updated
total divided by `2^30` (the total in gibibytes), and two decimal digits of
precision. -/
theorem c8_report_line (s : St) (r : Nat) (s' : St) (d : Option Delay)
    (rep : Report) (hstep : step s r = .cont s' d rep) :
    rep = { label := "Total size: ", decimals := 2,
            value := (s'.total : Rat) / 2 ^ 30 } := by
  by_cases hinc : s.increase = true
  · rw [step, if_pos hinc, growStep_cont] at hstep
    injection hstep with h1 h2 h3
    subst h1 h3
    rfl
  · rw [step, if_neg hinc] at hstep
    cases hchain : s.chain with
    | nil =>
        rw [shrinkStep_nil s hchain] at hstep
        cases hstep
    | cons t rest =>
        rw [shrinkStep_cons s t rest hchain] at hstep
        split at hstep <;>
          (injection hstep with h1 h2 h3; subst h1 h3; rfl)

/-- Witness for C8: the first growth step reports 10 MiB in gibibytes. -/
theorem c8_report_line_witness :
    report (10 * 2 ^ 20) =
      { label := "Total size: ", decimals := 2,
        value := ((({ chain := [newNode (10 * 2 ^ 20)], total := 10 * 2 ^ 20,
                      increase := true } : St).total : Rat) / 2 ^ 30) } :=
  c8_report_line initSt 9
    { chain := [newNode (10 * 2 ^ 20)], total := 10 * 2 ^ 20, increase := true }
    none (report (10 * 2 ^ 20)) rfl

end Memtest

namespace Memtest

/-- The maximal rand residue 255 draws a 256 MiB block. -/
lemma blockSize_255 : blockSize 255 = 268435456 := rfl

/-- The loop state after `n` growth steps that each drew the maximal rand
residue 255 (one 256 MiB block per step), as long as the total has not yet
crossed the high watermark. -/
def growN (n : Nat) : St :=
  { chain := List.replicate n (newNode 268435456),
    total := (n : Int) * 268435456, increase := true }

/-- The first 64 states of the maximal-draw run are reachable and still in
growing mode: `64 * 2^28 = 2^34` does not strictly exceed the high
watermark. -/
lemma reachable_growN : ∀ n, n ≤ 64 → Reachable (growN n) := by
  intro n
  induction n with
  | zero =>
      intro _
      have h0 : growN 0 = initSt := by
        simp [growN, initSt]
      rw [h0]
      exact Reachable.init
  | succ n ih =>
      intro hn
      refine Reachable.next (ih (by omega))
        (show step (growN n) 255 = .cont (growN (n + 1)) none
          (report (growN (n + 1)).total) from ?_)
      rw [step, if_pos (show (growN n).increase = true from rfl), growStep_cont]
      have htot : (growN n).total + (blockSize 255 : Int) = (growN (n + 1)).total := by
        simp only [growN, blockSize_255]
        push_cast
        ring
      have hinc : ¬ hi < (growN n).total + (blockSize 255 : Int) := by
        rw [htot]
        have hhi : hi = 17179869184 := by decide
        rw [hhi]
        simp only [growN]
        omega
      rw [if_neg hinc, htot]
      simp only [growN, blockSize_255, List.replicate_succ]

/-- The shrinking-mode state reached by the 65th maximal growth step: the
total `65 * 2^28 = 17448304640` has just crossed the high watermark. -/
def s65 : St :=
  { chain := List.replicate 65 (newNode 268435456), total := 17448304640,
    increase := false }

/-- The state `s65` is reachable: 65 loop iterations from the initial state,
each with rand value 255. -/
lemma s65_reachable : Reachable s65 := by
  refine Reachable.next (reachable_growN 64 (by omega))
    (show step (growN 64) 255 = .cont s65 none (report s65.total) from ?_)
  rw [step, if_pos (show (growN 64).increase = true from rfl), growStep_cont]
  have htot : (growN 64).total + (blockSize 255 : Int) = s65.total := by
    simp only [growN, blockSize_255, s65]
    decide
  have hpos : hi < (growN 64).total + (blockSize 255 : Int) := by
    rw [htot]
    decide
  rw [if_pos hpos, htot]
  simp only [growN, blockSize_255, s65, List.replicate_succ]

/-- Claim C10: in every reachable state in shrinking mode the chain holds at
least one non-sentinel block, so `dealloc` never takes its fatal empty-list
branch inside the loop: the mode only becomes shrinking above the high
watermark and reverts to growing below the low watermark, and the total
equals the bytes held by the chain. -/
theorem c10_shrink_never_fatal (s : St) (h : Reachable s)
    (hmode : s.increase = false) :
    s.chain ≠ [] ∧ dealloc s.chain ≠ none ∧
    ∃ s2 d rep, shrinkStep s = .cont s2 d rep := by
  obtain ⟨hsum, hlo⟩ := inv_reachable h
  have hge := hlo hmode
  have hne : s.chain ≠ [] := by
    intro hempty
    rw [hempty] at hsum
    simp [sumChain] at hsum
    have := lo_pos
    linarith
  cases hchain : s.chain with
  | nil => exact absurd hchain hne
  | cons t rest =>
      refine ⟨by simp, by simp [dealloc], ?_⟩
      rw [shrinkStep_cons s t rest hchain]
      by_cases hlt : s.total - (t.data : Int) < lo
      · rw [if_pos hlt]
        exact ⟨_, _, _, rfl⟩
      · rw [if_neg hlt]
        exact ⟨_, _, _, rfl⟩

/-- Witness for C10 at the reachable shrinking-mode state `s65`. -/
theorem c10_shrink_never_fatal_witness :
    s65.chain ≠ [] ∧ dealloc s65.chain ≠ none ∧
    ∃ s2 d rep, shrinkStep s65 = .cont s2 d rep :=
  c10_shrink_never_fatal s65 s65_reachable rfl

end Memtest
